import Mathlib

/-!
Verification of the ring-buffer manager of liburing (src/io_uring.c):
a shallow embedding of io_uring_get_completion, io_uring_submit,
io_uring_get_iocb and io_uring_mmap, and theorems about them.

Machine unsigned 32-bit values are modelled as Nat together with explicit
reduction modulo U32 = 2^32 at every operation that can wrap.  The engine
syscall io_uring_enter (src/syscall.c) is an external collaborator: calls
to it are represented explicitly in the result types — the arguments the
code passes are recorded, and on the completion side its results are
supplied by an oracle list — never interpreted.  Memory barriers
(read_barrier / write_barrier from src/barrier.h) are visibility fences
with no effect on the sequential state and are elided; where the C code
re-reads a kernel-owned cell after a barrier, the model simply reads the
current value of that field.
-/

/-- Modulus of unsigned 32-bit arithmetic, 2 ^ 32. -/
def U32 : Nat := 4294967296

/-- Wrapping unsigned 32-bit subtraction a - b, for a b < U32. -/
def sub32 (a b : Nat) : Nat := (a + U32 - b) % U32

/-- Value of the IORING_ENTER_GETEVENTS flag from the io_uring ABI header
(the header itself is an external binary contract; only the flag's presence
matters to the claims, never its numeric value). -/
def IORING_ENTER_GETEVENTS : Nat := 1

/-- Submission-ring descriptor, struct io_uring_sq.  khead, ktail,
kring_mask and kring_entries model the kernel-shared cells the struct holds
pointers to; array models the indirection table (one Nat per ring slot);
iocb_head and iocb_tail are the producer-local shadow indices.  The iocbs
buffer itself holds operation payloads never inspected by this code, so it
is not part of the state: io_uring_get_iocb returns the slot index in it. -/
structure SQ where
  khead : Nat
  ktail : Nat
  kring_mask : Nat
  kring_entries : Nat
  array : List Nat
  iocb_head : Nat
  iocb_tail : Nat
deriving DecidableEq

/-- Well-formed u32 state: every index field holds an unsigned 32-bit value. -/
def SQ.wf (sq : SQ) : Prop :=
  sq.khead < U32 ∧ sq.ktail < U32 ∧ sq.kring_mask < U32 ∧
    sq.kring_entries < U32 ∧ sq.iocb_head < U32 ∧ sq.iocb_tail < U32

instance (sq : SQ) : Decidable sq.wf := by
  unfold SQ.wf; infer_instance

/-- Completion-ring descriptor, struct io_uring_cq.  khead is the local
consumer index, ktail the kernel-owned producer index; events itself holds
kernel-written records never inspected by this code, so the model returns
the slot index into it. -/
structure CQ where
  khead : Nat
  ktail : Nat
  kring_mask : Nat
  kring_entries : Nat
deriving DecidableEq

/-- Result of the io_uring_get_iocb call (src/io_uring.c lines 104-118):
none models the NULL return (ring full), some i models a pointer to
sq.iocbs[i]; the second component is the submission-ring state on return. -/
def io_uring_get_iocb (sq : SQ) : Option Nat × SQ :=
  let next := (sq.iocb_tail + 1) % U32
  if sub32 next sq.iocb_head > sq.kring_entries then
    (none, sq)
  else
    (some (sq.iocb_tail &&& sq.kring_mask), { sq with iocb_tail := next })

/-- State produced by the fill loop of io_uring_submit: the indirection
array, the shadow head, the candidate kernel tail and the submitted count. -/
structure LoopOut where
  arr : List Nat
  iocb_head : Nat
  ktail : Nat
  submitted : Nat
deriving DecidableEq

/-- The fill loop of io_uring_submit (src/io_uring.c lines 69-82).  The C
loop runs while iocb_head < iocb_tail; iocb_head increases by one per
iteration and iocb_tail is fixed, so the iteration budget is
iocb_tail - iocb_head, made explicit here as the structural argument gap
(for u32 inputs the increment of iocb_head cannot wrap, since
iocb_head < iocb_tail < U32 holds throughout the loop).  Each iteration
advances the candidate tail ktail_next modulo U32, breaks without
publishing when the candidate would catch the kernel head, and otherwise
stores the ring-position-to-iocb-slot mapping into the indirection array,
commits the candidate tail, and advances the shadow head and the count. -/
def submitLoop (khead mask : Nat) : Nat → List Nat → Nat → Nat → Nat → LoopOut
  | 0, arr, iocb_head, ktail, submitted => ⟨arr, iocb_head, ktail, submitted⟩
  | gap + 1, arr, iocb_head, ktail, submitted =>
    let ktail_next := (ktail + 1) % U32
    if ktail_next = khead then ⟨arr, iocb_head, ktail, submitted⟩
    else
      submitLoop khead mask gap (arr.set (ktail &&& mask) (iocb_head &&& mask))
        (iocb_head + 1) ktail_next (submitted + 1)

/-- Outcome of io_uring_submit.  noEnter ret sq2 models a return of ret
without invoking io_uring_enter; enter ts mc fl sq2 models a tail call
return io_uring_enter(fd, ts, mc, fl) made in state sq2, whose (opaque
kernel-side) result is what io_uring_submit then returns. -/
inductive SubmitOutcome
  | noEnter (ret : Int) (sq2 : SQ)
  | enter (to_submit min_complete flags : Nat) (sq2 : SQ)
deriving DecidableEq

/-- io_uring_submit (src/io_uring.c lines 49-95).  First, if the
kernel-visible head and tail already differ, jump to the enter call with
submitted = *kring_entries.  Otherwise return 0 when no local iocbs are
queued; else run the fill loop, return 0 if it published nothing, store the
new kernel tail when it changed (the write_barrier-protected store), and
make the enter call with the submitted count. -/
def io_uring_submit (sq : SQ) : SubmitOutcome :=
  let mask := sq.kring_mask
  if sq.khead ≠ sq.ktail then
    .enter sq.kring_entries 0 IORING_ENTER_GETEVENTS sq
  else if sq.iocb_head = sq.iocb_tail then
    .noEnter 0 sq
  else
    let out := submitLoop sq.khead mask (sq.iocb_tail - sq.iocb_head) sq.array
      sq.iocb_head sq.ktail 0
    let sq1 : SQ := { sq with array := out.arr, iocb_head := out.iocb_head }
    if out.submitted = 0 then
      .noEnter 0 sq1
    else if sq1.ktail ≠ out.ktail then
      .enter out.submitted 0 IORING_ENTER_GETEVENTS { sq1 with ktail := out.ktail }
    else
      .enter out.submitted 0 IORING_ENTER_GETEVENTS sq1

/-- One io_uring_enter(fd, 0, 1, IORING_ENTER_GETEVENTS) outcome inside
io_uring_get_completion, supplied by the oracle: ok kt is a non-negative
return after which the kernel-owned CQ tail cell reads kt; err e is a
negative return with errno = e. -/
inductive EnterResult
  | ok (kt : Nat)
  | err (e : Nat)
deriving DecidableEq

/-- Outcome of io_uring_get_completion.  success i cq2 models return 0 with
*ev_ptr = &cq.events[i] (a non-NULL record pointer) in state cq2;
error r cq2 models return r (r = -errno) with *ev_ptr not written;
diverge means the oracle list ran out while the loop was still waiting. -/
inductive GCResult
  | success (evIdx : Nat) (cq2 : CQ)
  | error (ret : Int) (cq2 : CQ)
  | diverge
deriving DecidableEq

/-- The wait loop of io_uring_get_completion (src/io_uring.c lines 24-33)
together with the post-loop epilogue (lines 35-41).  head and mask are the
values read once before the loop; each iteration re-reads the kernel tail
(the read_barrier elided), breaks to the success epilogue — which stores
head + 1 into the consumer cell and returns the record slot — when
head differs from it, and otherwise makes one enter call: a negative result
returns -errno at once, a non-negative one loops with the tail the kernel
has now published. -/
def getCompletionLoop (head mask : Nat) (cq : CQ) (engine : List EnterResult) :
    GCResult :=
  if head ≠ cq.ktail then
    .success (head &&& mask) { cq with khead := (head + 1) % U32 }
  else
    match engine with
    | [] => .diverge
    | .err e :: _ => .error (-(e : Int)) cq
    | .ok kt :: rest => getCompletionLoop head mask { cq with ktail := kt } rest

/-- io_uring_get_completion (src/io_uring.c lines 15-42): reads the mask
and the consumer head once, then runs the wait loop. -/
def io_uring_get_completion (cq : CQ) (engine : List EnterResult) : GCResult :=
  getCompletionLoop cq.khead cq.kring_mask cq engine

/-- The three shared regions io_uring_mmap establishes. -/
inductive Region
  | sqRing
  | iocbBuf
  | cqRing
deriving DecidableEq

/-- Outcome of one mmap stage: ok, or fail e with errno = e. -/
inductive MmapOutcome
  | ok
  | fail (e : Nat)
deriving DecidableEq

/-- Establish a region (a successful mmap call). -/
def mmapReg (mapped : List Region) (r : Region) : List Region :=
  mapped ++ [r]

/-- Release a region (a munmap call). -/
def munmapReg (mapped : List Region) (r : Region) : List Region :=
  mapped.filter (fun x => x ≠ r)

/-- io_uring_mmap (src/io_uring.c lines 120-166), modelled as the sequence
of its three mmap stages — SQ ring region, iocb buffer, CQ ring region —
with the outcome of each stage an input.  Returns the C return value (fd on
success, -errno on the first failure) and the regions still mapped on
return.  Stage two's failure path releases the SQ ring region (the err:
label, munmap of sq->khead's region); stage three's failure path releases
the iocb buffer and then jumps to err: releasing the SQ ring region. -/
def io_uring_mmap (fd : Nat) (r1 r2 r3 : MmapOutcome) : Int × List Region :=
  match r1 with
  | .fail e => (-(e : Int), [])
  | .ok =>
    let m1 := mmapReg [] .sqRing
    match r2 with
    | .fail e => (-(e : Int), munmapReg m1 .sqRing)
    | .ok =>
      let m2 := mmapReg m1 .iocbBuf
      match r3 with
      | .fail e => (-(e : Int), munmapReg (munmapReg m2 .iocbBuf) .sqRing)
      | .ok => ((fd : Int), mmapReg m2 .cqRing)

/-- Claim C2: io_uring_get_iocb computes next = iocb_tail + 1 (wrapping u32)
and returns the NULL sentinel exactly when next - iocb_head (wrapping u32)
exceeds *kring_entries; otherwise it returns the slot at position
iocb_tail & *kring_mask and advances iocb_tail to next. -/
theorem get_iocb_spec (sq : SQ) :
    ((io_uring_get_iocb sq).fst = none ↔
      sub32 ((sq.iocb_tail + 1) % U32) sq.iocb_head > sq.kring_entries) ∧
    (sub32 ((sq.iocb_tail + 1) % U32) sq.iocb_head ≤ sq.kring_entries →
      io_uring_get_iocb sq =
        (some (sq.iocb_tail &&& sq.kring_mask),
         { sq with iocb_tail := (sq.iocb_tail + 1) % U32 })) := by
  by_cases hc : sub32 ((sq.iocb_tail + 1) % U32) sq.iocb_head > sq.kring_entries
  · refine ⟨by simp [io_uring_get_iocb, hc], fun h2 => absurd hc (by omega)⟩
  · exact ⟨by simp [io_uring_get_iocb, hc], fun _ => by simp [io_uring_get_iocb, hc]⟩

/-- Witness for C2: on a ring of capacity 4 holding 2 unpublished entries,
acquisition succeeds, hands out slot 2 and advances the shadow tail to 3. -/
theorem get_iocb_spec_witness :
    io_uring_get_iocb ⟨0, 0, 3, 4, [0, 0, 0, 0], 0, 2⟩ =
      (some (2 &&& 3),
       { (⟨0, 0, 3, 4, [0, 0, 0, 0], 0, 2⟩ : SQ) with iocb_tail := (2 + 1) % U32 }) :=
  (get_iocb_spec _).2 (by decide)

/-- Claim C9: when io_uring_get_iocb returns the NULL sentinel, nothing in
the submission-ring descriptor is modified: iocb_head, iocb_tail, the
kernel-visible head and tail, and the indirection array are exactly as
before the call. -/
theorem get_iocb_full_frame (sq : SQ)
    (h : (io_uring_get_iocb sq).fst = none) :
    (io_uring_get_iocb sq).snd = sq := by
  by_cases hc : sub32 ((sq.iocb_tail + 1) % U32) sq.iocb_head > sq.kring_entries
  · simp [io_uring_get_iocb, hc]
  · simp [io_uring_get_iocb, hc] at h

/-- Witness for C9: a full ring of capacity 4 (shadow occupancy 4) refuses
the fifth acquisition and the state on return is the entry state. -/
theorem get_iocb_full_frame_witness :
    (io_uring_get_iocb ⟨0, 0, 3, 4, [0, 0, 0, 0], 0, 4⟩).snd =
      ⟨0, 0, 3, 4, [0, 0, 0, 0], 0, 4⟩ :=
  get_iocb_full_frame _ (by decide)

/-- Claim C10: on every submission-ring state satisfying the occupancy
invariant iocb_tail - iocb_head <= *kring_entries in wrapping u32
arithmetic (with kring_entries the power-of-two ring capacity of the data
model), the fullness test of io_uring_get_iocb, (iocb_tail + 1) - iocb_head
> *kring_entries computed modulo 2^32, is true exactly when the occupancy
equals *kring_entries: the test stays correct after the free-running
indices wrap past 2^32. -/
theorem get_iocb_fullness_test_wraps (sq : SQ)
    (hh : sq.iocb_head < U32) (ht : sq.iocb_tail < U32)
    (hpow : ∃ k, k < 32 ∧ sq.kring_entries = 2 ^ k)
    (hocc : sub32 sq.iocb_tail sq.iocb_head ≤ sq.kring_entries) :
    ((io_uring_get_iocb sq).fst = none ↔
      sub32 sq.iocb_tail sq.iocb_head = sq.kring_entries) := by
  obtain ⟨k, hk, hE⟩ := hpow
  have hE2 : sq.kring_entries ≤ 2147483648 := by
    rw [hE]
    calc (2:Nat) ^ k ≤ 2 ^ 31 := Nat.pow_le_pow_right (by norm_num) (by omega)
      _ ≤ 2147483648 := by norm_num
  by_cases hc : sub32 ((sq.iocb_tail + 1) % U32) sq.iocb_head > sq.kring_entries
  · simp [io_uring_get_iocb, hc]
    unfold sub32 U32 at *
    omega
  · simp [io_uring_get_iocb, hc]
    unfold sub32 U32 at *
    omega

/-- Witness for C10: capacity 4 with wrapped indices iocb_head = 2^32 - 2,
iocb_tail = 2 (occupancy 4, the ring full): the fullness test fires and the
occupancy equals the capacity. -/
theorem get_iocb_fullness_test_wraps_witness :
    ((io_uring_get_iocb ⟨0, 0, 3, 4, [0, 0, 0, 0], 4294967294, 2⟩).fst = none ↔
      sub32 2 4294967294 = 4) :=
  get_iocb_fullness_test_wraps _ (by decide) (by decide)
    ⟨2, by norm_num, rfl⟩ (by decide)

/-- Claim C3: whenever a completion is already visible (the local consumer
head differs from the kernel-visible tail when the loop first observes it),
io_uring_get_completion returns 0, hands back a non-NULL reference to the
record at head & *kring_mask, and advances the local consumer head by
exactly one (mod 2^32), regardless of the engine oracle: exactly one record
per successful call, with no enter call made. -/
theorem get_completion_visible_spec (cq : CQ) (engine : List EnterResult)
    (h : cq.khead ≠ cq.ktail) :
    io_uring_get_completion cq engine =
      .success (cq.khead &&& cq.kring_mask)
        { cq with khead := (cq.khead + 1) % U32 } := by
  unfold io_uring_get_completion getCompletionLoop
  simp [h]

/-- Witness for C3: head 0, tail 2, mask 3 — the call returns the record at
slot 0 and advances the head to 1 without consulting the engine oracle. -/
theorem get_completion_visible_spec_witness :
    io_uring_get_completion ⟨0, 2, 3, 4⟩ [] =
      .success (0 &&& 3) { (⟨0, 2, 3, 4⟩ : CQ) with khead := (0 + 1) % U32 } :=
  get_completion_visible_spec _ _ (by decide)

/-- Helper for C6: any error outcome of the wait loop leaves the local
consumer head field exactly as it was on entry to the loop. -/
theorem getCompletionLoop_error_khead (engine : List EnterResult) :
    ∀ (head mask : Nat) (cq : CQ) (r : Int) (cq2 : CQ),
      getCompletionLoop head mask cq engine = .error r cq2 →
        cq2.khead = cq.khead := by
  induction engine with
  | nil =>
    intro head mask cq r cq2 h
    unfold getCompletionLoop at h
    split at h
    · simp at h
    · simp at h
  | cons a rest ih =>
    intro head mask cq r cq2 h
    unfold getCompletionLoop at h
    split at h
    · simp at h
    · cases a with
      | err e => cases h; rfl
      | ok kt => simpa using ih head mask { cq with ktail := kt } r cq2 h

/-- Claim C6: when the engine call inside io_uring_get_completion fails,
the function immediately returns the negated system error code with the
whole CQ state (in particular the consumer head *cq->khead) unchanged; and
on any error outcome whatsoever the consumer head is never advanced — it
only moves on the success path. -/
theorem get_completion_error_spec (cq : CQ) :
    (∀ (e : Nat) (rest : List EnterResult), cq.khead = cq.ktail →
      io_uring_get_completion cq (.err e :: rest) = .error (-(e : Int)) cq) ∧
    (∀ (engine : List EnterResult) (r : Int) (cq2 : CQ),
      io_uring_get_completion cq engine = .error r cq2 →
        cq2.khead = cq.khead) := by
  constructor
  · intro e rest h
    unfold io_uring_get_completion getCompletionLoop
    simp [h]
  · intro engine r cq2 h
    exact getCompletionLoop_error_khead engine cq.khead cq.kring_mask cq r cq2 h

/-- Witness for C6: an empty CQ (head = tail = 3) whose first enter call
fails with errno 11 makes the call return -11 with the state untouched. -/
theorem get_completion_error_spec_witness :
    io_uring_get_completion ⟨3, 3, 3, 4⟩ [.err 11] =
      .error (-(11 : Int)) ⟨3, 3, 3, 4⟩ :=
  (get_completion_error_spec _).1 11 [] rfl

/-- Claim C4: when the kernel-visible SQ head and tail already differ on
entry (unconsumed entries published by a previous cycle), io_uring_submit
skips straight to the engine call, passing the ring's recorded entry count
*kring_entries as the to-submit argument, with min_complete 0 and the
GETEVENTS flag, and with the whole submission-ring state untouched: no
locally queued descriptor is walked or published. -/
theorem submit_pending_kring_spec (sq : SQ) (h : sq.khead ≠ sq.ktail) :
    io_uring_submit sq =
      .enter sq.kring_entries 0 IORING_ENTER_GETEVENTS sq := by
  unfold io_uring_submit
  simp [h]

/-- Witness for C4: head 0, tail 1 (one unconsumed kernel entry), capacity
4, with two locally queued descriptors that stay untouched. -/
theorem submit_pending_kring_spec_witness :
    io_uring_submit ⟨0, 1, 3, 4, [0, 0, 0, 0], 0, 2⟩ =
      .enter 4 0 IORING_ENTER_GETEVENTS ⟨0, 1, 3, 4, [0, 0, 0, 0], 0, 2⟩ :=
  submit_pending_kring_spec _ (by decide)

/-- Claim C8: with the kernel ring idle (khead = ktail) and no locally
queued descriptors (iocb_head = iocb_tail), io_uring_submit returns 0
without invoking io_uring_enter and without modifying any state. -/
theorem submit_empty_returns_zero (sq : SQ) (h1 : sq.khead = sq.ktail)
    (h2 : sq.iocb_head = sq.iocb_tail) :
    io_uring_submit sq = .noEnter 0 sq := by
  unfold io_uring_submit
  simp [h1, h2]

/-- Witness for C8: a quiescent ring (all indices 7) returns 0 at once. -/
theorem submit_empty_returns_zero_witness :
    io_uring_submit ⟨7, 7, 3, 4, [0, 0, 0, 0], 7, 7⟩ =
      .noEnter 0 ⟨7, 7, 3, 4, [0, 0, 0, 0], 7, 7⟩ :=
  submit_empty_returns_zero _ rfl rfl

/-- Counterexample to claim C5 as stated: it is not true that every
io_uring_enter call made by io_uring_submit carries a min_complete argument
requesting at least one completion — the code always passes min_complete
0.  Refuted at the concrete state khead 0, ktail 1 (capacity 4). -/
theorem submit_enter_min_complete_counterexample :
    ¬ (∀ (sq : SQ) (ts mc fl : Nat) (sq2 : SQ),
        io_uring_submit sq = .enter ts mc fl sq2 → 1 ≤ mc) := by
  intro hall
  have h := hall ⟨0, 1, 3, 4, [0, 0, 0, 0], 0, 0⟩ 4 0 IORING_ENTER_GETEVENTS
    ⟨0, 1, 3, 4, [0, 0, 0, 0], 0, 0⟩ (by decide)
  omega

/-- Claim C5 (amended): every call to io_uring_submit that reaches the
engine invocation invokes io_uring_enter with the submitted count as
to_submit, a min_complete argument of zero, and the IORING_ENTER_GETEVENTS
flag, and returns that call's result (the enter outcome constructor records
exactly the arguments passed and stands for returning the call's result). -/
theorem submit_enter_args_amended (sq : SQ) :
    ∀ (ts mc fl : Nat) (sq2 : SQ), io_uring_submit sq = .enter ts mc fl sq2 →
      mc = 0 ∧ fl = IORING_ENTER_GETEVENTS := by
  intro ts mc fl sq2 h
  unfold io_uring_submit at h
  split at h
  · cases h; exact ⟨rfl, rfl⟩
  · split at h
    · cases h
    · dsimp only at h
      split at h
      · cases h
      · split at h
        · cases h; exact ⟨rfl, rfl⟩
        · cases h; exact ⟨rfl, rfl⟩

/-- Witness for C5 (amended): a publish of two locally queued descriptors
reaches the engine with to_submit 2, min_complete 0 and the GETEVENTS
flag. -/
theorem submit_enter_args_amended_witness :
    io_uring_submit ⟨0, 0, 3, 4, [0, 0, 0, 0], 0, 2⟩ =
      .enter 2 0 IORING_ENTER_GETEVENTS ⟨0, 2, 3, 4, [0, 1, 0, 0], 2, 2⟩ ∧
    (0 = 0 ∧ IORING_ENTER_GETEVENTS = IORING_ENTER_GETEVENTS) :=
  ⟨by decide,
   submit_enter_args_amended ⟨0, 0, 3, 4, [0, 0, 0, 0], 0, 2⟩ 2 0
     IORING_ENTER_GETEVENTS ⟨0, 2, 3, 4, [0, 1, 0, 0], 2, 2⟩ (by decide)⟩

/-- Claim C7: every mapping-stage failure of io_uring_mmap returns the
negative system error code with no mapping of this attempt left
established: a first-stage failure has nothing to release, an iocb-buffer
failure releases the SQ ring region, and a CQ ring failure releases the
iocb buffer and then the SQ ring region. -/
theorem io_uring_mmap_rollback (fd e : Nat) (he : 0 < e) :
    (∀ r2 r3, io_uring_mmap fd (.fail e) r2 r3 = (-(e : Int), [])) ∧
    (∀ r3, io_uring_mmap fd .ok (.fail e) r3 = (-(e : Int), [])) ∧
    (io_uring_mmap fd .ok .ok (.fail e) = (-(e : Int), [])) ∧
    -(e : Int) < 0 := by
  refine ⟨fun r2 r3 => rfl, fun r3 => rfl, rfl, by omega⟩

/-- Witness for C7: CQ-stage failure with errno 12 on fd 5 returns -12 and
leaves nothing mapped. -/
theorem io_uring_mmap_rollback_witness :
    io_uring_mmap 5 .ok .ok (.fail 12) = (-(12 : Int), []) :=
  (io_uring_mmap_rollback 5 12 (by decide)).2.2.1

/-- Helper for C1: when no candidate tail in the walk can catch the kernel
head, the fill loop publishes every queued entry: the shadow head reaches
the shadow tail, the candidate kernel tail advances by gap modulo 2^32,
and the submitted count grows by gap. -/
theorem submitLoop_run (khead mask : Nat) :
    ∀ (gap : Nat) (arr : List Nat) (iocb_head ktail s : Nat), ktail < U32 →
      (∀ j, 1 ≤ j → j ≤ gap → (ktail + j) % U32 ≠ khead) →
      ∃ arr2, submitLoop khead mask gap arr iocb_head ktail s =
        ⟨arr2, iocb_head + gap, (ktail + gap) % U32, s + gap⟩ := by
  intro gap
  induction gap with
  | zero =>
    intro arr iocb_head ktail s hk hnb
    exact ⟨arr, by simp [submitLoop, Nat.mod_eq_of_lt hk]⟩
  | succ g ih =>
    intro arr iocb_head ktail s hk hnb
    have h1 : (ktail + 1) % U32 ≠ khead := hnb 1 le_rfl (by omega)
    have hk2 : (ktail + 1) % U32 < U32 := Nat.mod_lt _ (by unfold U32; omega)
    have hnb2 : ∀ j, 1 ≤ j → j ≤ g → ((ktail + 1) % U32 + j) % U32 ≠ khead := by
      intro j hj1 hj2
      have he : ((ktail + 1) % U32 + j) % U32 = (ktail + (j + 1)) % U32 := by
        unfold U32
        omega
      rw [he]
      exact hnb (j + 1) (by omega) (by omega)
    obtain ⟨arr2, h2⟩ := ih (arr.set (ktail &&& mask) (iocb_head &&& mask))
      (iocb_head + 1) ((ktail + 1) % U32) (s + 1) hk2 hnb2
    refine ⟨arr2, ?_⟩
    have e1 : iocb_head + 1 + g = iocb_head + (g + 1) := by omega
    have e2 : ((ktail + 1) % U32 + g) % U32 = (ktail + (g + 1)) % U32 := by
      unfold U32
      omega
    have e3 : s + 1 + g = s + (g + 1) := by omega
    rw [e1, e2, e3] at h2
    unfold submitLoop
    dsimp only
    rw [if_neg h1]
    exact h2

/-- Claim C1: every io_uring_submit call that takes the publish path
(kernel-visible head equal to kernel-visible tail on entry; the kernel side
is held fixed, khead being read but never written here) and reaches the
engine call with a positive submitted count leaves the kernel-visible tail
equal to the kernel-visible head plus the submitted count (mod 2^32), and
that tail never exceeds the kernel-visible head plus the ring capacity:
its wrapping distance from the head is at most *kring_entries.  The state
is assumed well-formed as io_uring_get_iocb maintains it: u32 index fields
and shadow occupancy at most the capacity. -/
theorem submit_publish_tail_bound (sq : SQ)
    (hkt : sq.ktail < U32) (hit : sq.iocb_tail < U32)
    (heq : sq.khead = sq.ktail)
    (hocc : sub32 sq.iocb_tail sq.iocb_head ≤ sq.kring_entries) :
    ∀ (ts mc fl : Nat) (sq2 : SQ), io_uring_submit sq = .enter ts mc fl sq2 →
      1 ≤ ts ∧ sq2.ktail = (sq.khead + ts) % U32 ∧ ts ≤ sq.kring_entries ∧
        sub32 sq2.ktail sq.khead ≤ sq.kring_entries := by
  intro ts mc fl sq2 h
  unfold io_uring_submit at h
  dsimp only at h
  rw [if_neg (by simp [heq])] at h
  by_cases hB : sq.iocb_head = sq.iocb_tail
  · rw [if_pos hB] at h
    cases h
  · rw [if_neg hB] at h
    by_cases hlt : sq.iocb_head < sq.iocb_tail
    · have hgap1 : 1 ≤ sq.iocb_tail - sq.iocb_head := by omega
      have hgapU : sq.iocb_tail - sq.iocb_head < U32 := by omega
      have hnb : ∀ j, 1 ≤ j → j ≤ sq.iocb_tail - sq.iocb_head →
          (sq.ktail + j) % U32 ≠ sq.khead := by
        intro j hj1 hj2
        rw [heq]
        simp only [U32] at hkt hit ⊢
        omega
      obtain ⟨arr2, hrun⟩ := submitLoop_run sq.khead sq.kring_mask
        (sq.iocb_tail - sq.iocb_head) sq.array sq.iocb_head sq.ktail 0 hkt hnb
      rw [hrun] at h
      dsimp only at h
      rw [if_neg (by omega : ¬ (0 + (sq.iocb_tail - sq.iocb_head) = 0))] at h
      have hgocc : sq.iocb_tail - sq.iocb_head ≤ sq.kring_entries := by
        simp only [sub32, U32] at hocc
        simp only [U32] at hit
        omega
      split at h
      · cases h
        refine ⟨by omega, ?_, by omega, ?_⟩
        · dsimp only
          rw [heq]
          simp only [U32]
          omega
        · dsimp only
          rw [heq]
          simp only [sub32, U32] at hkt hgapU hgocc ⊢
          omega
      · rename_i hne
        have hkeq : sq.ktail = (sq.ktail + (sq.iocb_tail - sq.iocb_head)) % U32 :=
          not_not.mp hne
        exfalso
        simp only [U32] at hkt hgapU hkeq
        omega
    · have hg : sq.iocb_tail - sq.iocb_head = 0 := by omega
      rw [hg] at h
      simp [submitLoop] at h

/-- Witness for C1: capacity 4, khead = ktail = 5, three queued iocbs —
submit publishes all three, the new tail 8 is head + 3 and within head +
capacity. -/
theorem submit_publish_tail_bound_witness :
    1 ≤ 3 ∧ (⟨5, 8, 3, 4, [9, 0, 1, 2], 3, 3⟩ : SQ).ktail = (5 + 3) % U32 ∧
      3 ≤ 4 ∧ sub32 (⟨5, 8, 3, 4, [9, 0, 1, 2], 3, 3⟩ : SQ).ktail 5 ≤ 4 :=
  submit_publish_tail_bound ⟨5, 5, 3, 4, [9, 9, 9, 9], 0, 3⟩ (by decide) (by decide)
    rfl (by decide) 3 0 IORING_ENTER_GETEVENTS ⟨5, 8, 3, 4, [9, 0, 1, 2], 3, 3⟩
    (by decide)
